import Mathlib

/-!
Verification development for the CodexPoker hand-orchestration engine
(backend/src/codexpoker_backend). The Python source is shallowly embedded:
pure fragments become Lean functions, stateful fragments become explicit
state passing or inductive step relations. The external rules primitive
provider (the pokerkit library) is not part of the repository; where its
behaviour decides a property it is modelled from the specification's
capability surface, and each such definition is marked. All definitions
are executable.
-/

namespace CodexPoker

/-! ### Event sequencing (engine/service.py, `_emit_event`, lines 968-990)

The table owns `event_seq`; `_emit_event` is the only code that writes it
(`table.event_seq += 1`) and appends an envelope carrying the new value.
`restart_session` resets hands and stacks but never touches `event_seq`.
We model the table-lifetime emission history as the list of emitted
sequence numbers. -/

structure EmitState where
  event_seq : Nat
  emitted : List Nat
deriving Repr, DecidableEq

/-- Fresh table: counter 0, nothing emitted (`TableRuntime.event_seq: int = 0`). -/
def initialEmitState : EmitState := { event_seq := 0, emitted := [] }

/-- Transcribes `_emit_event`: `table.event_seq += 1` followed by appending an
envelope whose `event_seq` is the new counter value. -/
def emitEvent (s : EmitState) : EmitState :=
  { event_seq := s.event_seq + 1, emitted := s.emitted ++ [s.event_seq + 1] }

/-- Table lifetimes: every engine operation only ever emits through
`emitEvent`; no code path resets or otherwise writes the counter. -/
inductive EmitReachable : EmitState → Prop
  | init : EmitReachable initialEmitState
  | emit {s : EmitState} : EmitReachable s → EmitReachable (emitEvent s)

/-! ### Chip conservation (engine/service.py, `_invariant_payload`, lines 992-1007)

The live invariant payload computes
`sum(seat stacks) + sum(state.bets) + sum(pot.amount for pot in state.pots)`
and compares it with `starting_stack * num_seats`. Seat stacks are synced
from the provider before every observation (`_sync_table_stacks_from_state`),
so an observation point is a single chip state: per-seat stacks, per-seat
chips in front (bets), and the pot amounts. -/

structure ChipState where
  stacks_by_seat : List Nat
  bets : List Nat
  pots : List Nat
deriving Repr, DecidableEq

/-- Transcribes the `chip_conservation` field of `_invariant_payload`:
`total_chips == table.config.starting_stack * table.config.num_seats` where
`total_chips = sum(stacks) + in_front + sum(pot amounts)`. -/
def chipConservationCheck (num_seats starting_stack : Nat) (g : ChipState) : Bool :=
  g.stacks_by_seat.sum + (g.bets.sum + g.pots.sum) == starting_stack * num_seats

/-- Transcribes the replay verifier's `chip_conservation` check
(service.py line 1122): replayed final stacks must sum to
`total_chips_target = sum(initial_stacks_by_seat.values())` (line 1012). -/
def replayChipConservationCheck (initialStacks finalStacks : List Nat) : Bool :=
  finalStacks.sum == initialStacks.sum

/-- Modelled from the spec: chip-level behaviour of the external Rules
Primitive Provider (§6 capability surface), which is not part of this
repository. Posting a blind or ante, checking, calling and raising move
chips from a seat stack to the chips in front of that seat; collecting a
street moves all chips in front into a new pot; pushing a pot moves its
amount to the chips in front of the winning seats; pulling moves the chips
in front of a seat into its stack. No operation creates or destroys chips
and no stack goes negative (§3 invariants). The relation is indexed by
seat, which is equivalent for chip totals to the player-index view of the
provider because the seat/player mapping of a hand is a bijection. -/
inductive ChipStep : ChipState → ChipState → Prop
  | toBet (g : ChipState) (i m : Nat) (hi : i < g.stacks_by_seat.length)
      (hib : i < g.bets.length) (hm : m ≤ g.stacks_by_seat.get ⟨i, hi⟩) :
      ChipStep g { stacks_by_seat := g.stacks_by_seat.set i (g.stacks_by_seat.get ⟨i, hi⟩ - m),
                   bets := g.bets.set i (g.bets.get ⟨i, hib⟩ + m),
                   pots := g.pots }
  | collect (g : ChipState) :
      ChipStep g { stacks_by_seat := g.stacks_by_seat,
                   bets := List.replicate g.bets.length 0,
                   pots := g.pots ++ [g.bets.sum] }
  | push (g : ChipState) (k : Nat) (amounts : List Nat) (hk : k < g.pots.length)
      (hlen : amounts.length = g.bets.length)
      (hsum : amounts.sum = g.pots.get ⟨k, hk⟩) :
      ChipStep g { stacks_by_seat := g.stacks_by_seat,
                   bets := List.zipWith (· + ·) g.bets amounts,
                   pots := g.pots.eraseIdx k }
  | pull (g : ChipState) (i : Nat) (hi : i < g.stacks_by_seat.length) (hib : i < g.bets.length) :
      ChipStep g { stacks_by_seat := g.stacks_by_seat.set i (g.stacks_by_seat.get ⟨i, hi⟩ + g.bets.get ⟨i, hib⟩),
                   bets := g.bets.set i 0,
                   pots := g.pots }

/-- Fresh table state (`create_table`): every seat holds `starting_stack`,
nothing in front, no pots. -/
def initialChips (num_seats starting_stack : Nat) : ChipState :=
  { stacks_by_seat := List.replicate num_seats starting_stack,
    bets := List.replicate num_seats 0,
    pots := [] }

/-- Observation points reachable across the whole lifetime of a table
(spanning all hands: starting or ending a hand moves no chips). -/
inductive ChipReachable (num_seats starting_stack : Nat) : ChipState → Prop
  | init : ChipReachable num_seats starting_stack (initialChips num_seats starting_stack)
  | step {g g' : ChipState} : ChipReachable num_seats starting_stack g →
      ChipStep g g' → ChipReachable num_seats starting_stack g'

/-- Total chips visible at an observation point, as summed by `_invariant_payload`. -/
def chipTotal (g : ChipState) : Nat := g.stacks_by_seat.sum + (g.bets.sum + g.pots.sum)

/-! ### Action submission (engine/service.py, `submit_action` lines 115-169 and
`_apply_player_action` lines 594-690)

The provider state is embedded as a snapshot of exactly the queries these
two functions read; the provider transitions they invoke (`fold`,
`check_or_call`, `complete_bet_or_raise_to`) are black boxes to the engine
and enter as parameters, so theorems hold for every provider behaviour.
The view-state construction is pure and does not affect any claim, so
responses carry its observable scalars only. -/

/-- Mirrors `ClientActionType` (engine/models.py lines 33-39). -/
inductive ClientActionType
  | fold
  | check
  | call
  | bet
  | raise
  | all_in
deriving Repr, DecidableEq

/-- Mirrors `Street` (engine/models.py lines 24-30). -/
inductive Street
  | preflop
  | flop
  | turn
  | river
  | showdown
  | hand_ended
deriving Repr, DecidableEq

/-- Snapshot of the pokerkit `State` queries read by the embedded code paths.
Cards are irrelevant to these paths; the board is carried as its card count,
which is all `_street_from_state` reads. -/
structure PState where
  status : Bool
  actor_index : Option Nat
  can_fold : Bool
  can_check_or_call : Bool
  checking_or_calling_amount : Option Nat
  can_complete_bet_or_raise_to : Bool
  min_completion_betting_or_raising_to_amount : Option Nat
  max_completion_betting_or_raising_to_amount : Option Nat
  bets : List Nat
  pstacks : List Nat
  board_count : Nat
deriving Repr, DecidableEq

/-- Provider transitions invoked by `_apply_player_action`. The engine treats
the provider as a black box, so these are parameters and every theorem below
is quantified over them. -/
structure PTrans where
  fold_step : PState → PState
  check_or_call_step : PState → PState
  complete_bet_or_raise_to_step : PState → Nat → PState

/-- Transcribes `_street_from_state` (service.py lines 941-951). -/
def street_from_state (p : PState) : Street :=
  if p.board_count == 0 then Street.preflop
  else if p.board_count == 3 then Street.flop
  else if p.board_count == 4 then Street.turn
  else if p.board_count == 5 && p.status then Street.river
  else Street.showdown

/-- Mirrors `ActionHistoryRow` (engine/models.py lines 203-211). -/
structure ARow where
  step_index : Nat
  action_seq : Nat
  seat_id : Nat
  action : ClientActionType
  amount_to : Option Nat
  street : Street
deriving Repr, DecidableEq

/-- Observable scalars of `SubmitActionResponse` (engine/models.py lines
186-193); the embedded `view_state` is omitted and `event_queue_delta` is
carried as its length. -/
structure Response where
  accepted : Bool
  error_code : Option String
  server_action_seq : Nat
  event_delta_len : Nat
deriving Repr, DecidableEq

/-- Fields of `HandRuntime` (engine/internal.py lines 19-55) read or written
by the embedded code paths. Dictionaries keyed by seat are lists indexed by
seat; the event log is carried as the emitted sequence numbers. -/
structure HandSt where
  hand_id : Nat
  action_seq : Nat
  next_step_index : Nat
  action_log_internal : List ARow
  event_log : List Nat
  idempotency_cache : List (String × Response)
  committed_this_street_by_seat : List Nat
  total_committed_by_seat : List Nat
  folded_seats : List Nat
  all_in_seats : List Nat
  player_index_to_seat : List Nat
  pstate : PState
deriving Repr, DecidableEq

/-- Fields of `TableRuntime` (engine/internal.py lines 58-73) read or written
by the embedded code paths. -/
structure TableSt where
  seat_stacks : List Nat
  event_seq : Nat
  current_hand : Option HandSt
deriving Repr, DecidableEq

/-- Transcribes `_actor_seat` (service.py lines 931-935). -/
def actor_seat (hand : HandSt) : Option Nat :=
  match hand.pstate.actor_index with
  | none => none
  | some actor => hand.player_index_to_seat.get? actor

/-- Transcribes `_sync_table_stacks_from_state` (service.py lines 937-939):
for every player index of the hand, copy the provider stack to that seat. -/
def sync_table_stacks (mapping pstacks seat_stacks : List Nat) : List Nat :=
  (List.range mapping.length).foldl
    (fun acc player_index =>
      match mapping.get? player_index, pstacks.get? player_index with
      | some seat, some v => acc.set seat v
      | _, _ => acc)
    seat_stacks

/-- Python set `add`: insert the element when absent. -/
def set_add (l : List Nat) (x : Nat) : List Nat := if x ∈ l then l else l ++ [x]

/-- Python `dict[seat] += amt` on a by-seat ledger. -/
def add_at (l : List Nat) (i amt : Nat) : List Nat := l.set i (l.getD i 0 + amt)

/-- Common tail of `_apply_player_action` (service.py lines 675-690): bump
the action sequence number, append the normalized row with a fresh step
index and the post-action street, sync table stacks from the provider, and
emit one ACTION event. -/
def finish_action (table : TableSt) (hand₀ : HandSt) (seat : Nat)
    (state' : PState) (action_to_log : ClientActionType) (amount_logged : Option Nat) :
    TableSt × HandSt :=
  let action_seq' := hand₀.action_seq + 1
  let entry : ARow :=
    { step_index := hand₀.next_step_index
      action_seq := action_seq'
      seat_id := seat
      action := action_to_log
      amount_to := amount_logged
      street := street_from_state state' }
  let hand' := { hand₀ with
    pstate := state'
    action_seq := action_seq'
    next_step_index := hand₀.next_step_index + 1
    action_log_internal := hand₀.action_log_internal ++ [entry]
    event_log := hand₀.event_log ++ [table.event_seq + 1] }
  let table' := { table with
    seat_stacks := sync_table_stacks hand'.player_index_to_seat state'.pstacks table.seat_stacks
    event_seq := table.event_seq + 1
    current_hand := some hand' }
  (table', hand')

/-- Per-action-kind body of `_apply_player_action` (service.py lines
608-673): validates the action against the current provider queries,
performs the provider transition, updates the per-seat ledgers and the
folded/all-in sets, and yields the post-action provider state together
with the normalized action kind and logged amount. Every
`raise EngineRejectedAction` becomes `Except.error` with the same code;
each error exit occurs before any mutation, exactly as in the source. -/
def apply_branch (pt : PTrans) (table : TableSt) (hand : HandSt) (seat : Nat)
    (action : ClientActionType) (amount_to : Option Nat) :
    Except String (PState × ClientActionType × Option Nat × HandSt) :=
  let state := hand.pstate
  match action with
  | ClientActionType.fold =>
    if !state.can_fold then Except.error "ACTION_NOT_ALLOWED"
    else
      let state' := pt.fold_step state
      let hand₁ := { hand with folded_seats := set_add hand.folded_seats seat }
      Except.ok (state', ClientActionType.fold, amount_to, hand₁)
  | ClientActionType.check | ClientActionType.call =>
    if !state.can_check_or_call then Except.error "ACTION_NOT_ALLOWED"
    else
      let call_amount := state.checking_or_calling_amount.getD 0
      let state' := pt.check_or_call_step state
      let amount_logged := if call_amount > 0 then some call_amount else none
      let action_to_log :=
        if call_amount > 0 ∧ table.seat_stacks.getD seat 0 = call_amount then
          ClientActionType.all_in
        else if call_amount = 0 then ClientActionType.check
        else ClientActionType.call
      let hand₁ :=
        if call_amount > 0 ∧ table.seat_stacks.getD seat 0 = call_amount then
          { hand with all_in_seats := set_add hand.all_in_seats seat }
        else hand
      let hand₂ := { hand₁ with
        committed_this_street_by_seat := add_at hand₁.committed_this_street_by_seat seat call_amount
        total_committed_by_seat := add_at hand₁.total_committed_by_seat seat call_amount }
      Except.ok (state', action_to_log, amount_logged, hand₂)
  | ClientActionType.bet | ClientActionType.raise =>
    match amount_to with
    | none => Except.error "MISSING_AMOUNT"
    | some amt =>
      if !state.can_complete_bet_or_raise_to then Except.error "ACTION_NOT_ALLOWED"
      else
        match state.min_completion_betting_or_raising_to_amount,
            state.max_completion_betting_or_raising_to_amount with
        | some min_to, some max_to =>
          if amt < min_to ∨ amt > max_to then Except.error "INVALID_SIZING"
          else
            let before := state.bets.getD (state.actor_index.getD 0) 0
            let state' := pt.complete_bet_or_raise_to_step state amt
            let delta := amt - before
            let hand₁ := { hand with
              committed_this_street_by_seat := add_at hand.committed_this_street_by_seat seat delta
              total_committed_by_seat := add_at hand.total_committed_by_seat seat delta }
            let action_to_log :=
              if amt = max_to then ClientActionType.all_in else action
            let hand₂ :=
              if amt = max_to then
                { hand₁ with all_in_seats := set_add hand₁.all_in_seats seat }
              else hand₁
            Except.ok (state', action_to_log, some amt, hand₂)
        | _, _ => Except.error "ACTION_NOT_ALLOWED"
  | ClientActionType.all_in =>
    if state.can_complete_bet_or_raise_to &&
        state.max_completion_betting_or_raising_to_amount.isSome then
      let max_to := state.max_completion_betting_or_raising_to_amount.getD 0
      let before := state.bets.getD (state.actor_index.getD 0) 0
      let state' := pt.complete_bet_or_raise_to_step state max_to
      let delta := max_to - before
      let hand₁ := { hand with
        committed_this_street_by_seat := add_at hand.committed_this_street_by_seat seat delta
        total_committed_by_seat := add_at hand.total_committed_by_seat seat delta
        all_in_seats := set_add hand.all_in_seats seat }
      Except.ok (state', ClientActionType.all_in, some max_to, hand₁)
    else if state.can_check_or_call then
      let call_amount := state.checking_or_calling_amount.getD 0
      let state' := pt.check_or_call_step state
      let amount_logged := if call_amount > 0 then some call_amount else none
      let hand₁ := { hand with
        committed_this_street_by_seat := add_at hand.committed_this_street_by_seat seat call_amount
        total_committed_by_seat := add_at hand.total_committed_by_seat seat call_amount
        all_in_seats := set_add hand.all_in_seats seat }
      Except.ok (state', ClientActionType.all_in, amount_logged, hand₁)
    else Except.error "ACTION_NOT_ALLOWED"

/-- Transcribes `_apply_player_action` (service.py lines 594-690): the
entry actor check, the per-action body, and the common logging tail. -/
def apply_player_action (pt : PTrans) (table : TableSt) (hand : HandSt) (seat : Nat)
    (action : ClientActionType) (amount_to : Option Nat) :
    Except String (TableSt × HandSt) :=
  if actor_seat hand ≠ some seat then Except.error "NOT_TURN"
  else
    match apply_branch pt table hand seat action amount_to with
    | Except.error code => Except.error code
    | Except.ok (state', action_to_log, amount_logged, hand₁) =>
      Except.ok (finish_action table hand₁ seat state' action_to_log amount_logged)

/-- Result of `submit_action`: either a raised `EngineRejectedAction` or a
returned `SubmitActionResponse`. -/
inductive SubmitOutcome
  | raised (code : String)
  | ok (response : Response)
deriving Repr, DecidableEq

/-- Transcribes `submit_action` (service.py lines 115-169). The
`_advance_locked` call on the success path is a black box here, passed as
`advance_locked`; the build of the view state is pure and elided. -/
def submit_action (pt : PTrans) (advance_locked : TableSt → HandSt → TableSt × HandSt)
    (table : TableSt) (viewer_id : String) (action : ClientActionType)
    (action_seq : Nat) (idempotency_key : String) (amount_to : Option Nat) :
    SubmitOutcome × TableSt :=
  match table.current_hand with
  | none => (SubmitOutcome.raised "NO_ACTIVE_HAND", table)
  | some hand =>
    match List.lookup idempotency_key hand.idempotency_cache with
    | some cached => (SubmitOutcome.ok cached, table)
    | none =>
      if viewer_id ≠ "human" then (SubmitOutcome.raised "UNAUTHORIZED_VIEWER", table)
      else if action_seq ≠ hand.action_seq + 1 then
        (SubmitOutcome.raised "BAD_ACTION_SEQ", table)
      else if actor_seat hand ≠ some 0 then (SubmitOutcome.raised "NOT_YOUR_TURN", table)
      else
        let start_index := hand.event_log.length
        match apply_player_action pt table hand 0 action amount_to with
        | Except.error code =>
          (SubmitOutcome.ok
            { accepted := false
              error_code := some code
              server_action_seq := hand.action_seq
              event_delta_len := 0 }, table)
        | Except.ok (table₁, hand₁) =>
          let adv := advance_locked table₁ hand₁
          let response : Response :=
            { accepted := true
              error_code := none
              server_action_seq := adv.2.action_seq
              event_delta_len := adv.2.event_log.length - start_index }
          let hand₃ := { adv.2 with
            idempotency_cache := adv.2.idempotency_cache ++ [(idempotency_key, response)] }
          (SubmitOutcome.ok response, { adv.1 with current_hand := some hand₃ })

/-- Classifies a submit outcome as a rejection: a raised caller-input error
or a returned response with `accepted=False`. -/
def isRejected (out : SubmitOutcome) : Bool :=
  match out with
  | SubmitOutcome.raised _ => true
  | SubmitOutcome.ok r => !r.accepted

/-- Normalized action recorded by an accepted application, read back from
the appended `ActionHistoryRow`. -/
def logged_action (r : Except String (TableSt × HandSt)) : Option ClientActionType :=
  match r with
  | Except.ok (_, hand') => (hand'.action_log_internal.getLast?).map ARow.action
  | Except.error _ => none

/-- Trivial provider transitions, used only to evaluate concrete instances. -/
def trivialPTrans : PTrans :=
  { fold_step := id
    check_or_call_step := id
    complete_bet_or_raise_to_step := fun s _ => s }

/-- Trivial advance, used only to evaluate concrete instances. -/
def trivialAdvance : TableSt → HandSt → TableSt × HandSt := fun t h => (t, h)

/-- Concrete provider snapshot used to evaluate the submission paths: the
human seat (player index 0, seat 0) is on turn facing a call of 2 and may
raise to between 4 and 10. -/
def exPState : PState :=
  { status := true
    actor_index := some 0
    can_fold := true
    can_check_or_call := true
    checking_or_calling_amount := some 2
    can_complete_bet_or_raise_to := true
    min_completion_betting_or_raising_to_amount := some 4
    max_completion_betting_or_raising_to_amount := some 10
    bets := [0, 2]
    pstacks := [10, 8]
    board_count := 0 }

/-- Response previously computed and cached under key `retry-key`. -/
def exResp : Response :=
  { accepted := true, error_code := none, server_action_seq := 5, event_delta_len := 3 }

/-- Concrete hand mid-play: action sequence 5, one cached response. -/
def exHand : HandSt :=
  { hand_id := 1
    action_seq := 5
    next_step_index := 6
    action_log_internal := []
    event_log := [1, 2, 3]
    idempotency_cache := [("retry-key", exResp)]
    committed_this_street_by_seat := [0, 0]
    total_committed_by_seat := [0, 0]
    folded_seats := []
    all_in_seats := []
    player_index_to_seat := [0, 1]
    pstate := exPState }

/-- Concrete table owning `exHand`. -/
def exTable : TableSt :=
  { seat_stacks := [10, 8], event_seq := 3, current_hand := some exHand }

/-- First submission of a fresh key on `exTable` (a legal call at sequence 6). -/
def exFirstCall : SubmitOutcome × TableSt :=
  submit_action trivialPTrans trivialAdvance exTable "human" ClientActionType.call 6
    "fresh-key" none

/-- Response computed by `exFirstCall`. -/
def exRespAfter : Response :=
  { accepted := true, error_code := none, server_action_seq := 6, event_delta_len := 1 }

/-- Concrete hand whose full remaining stack equals the pending call amount
(a short all-in call), seat 0 stack 10 facing a call of 10. -/
def exHandShort : HandSt :=
  { hand_id := 2
    action_seq := 0
    next_step_index := 1
    action_log_internal := []
    event_log := []
    idempotency_cache := []
    committed_this_street_by_seat := [0, 0]
    total_committed_by_seat := [0, 0]
    folded_seats := []
    all_in_seats := []
    player_index_to_seat := [0, 1]
    pstate := { exPState with
      checking_or_calling_amount := some 10
      can_complete_bet_or_raise_to := false
      min_completion_betting_or_raising_to_amount := none
      max_completion_betting_or_raising_to_amount := none } }

/-- Concrete table owning `exHandShort`. -/
def exTableShort : TableSt :=
  { seat_stacks := [10, 8], event_seq := 0, current_hand := some exHandShort }

/-! ### Hand seating (engine/service.py, `_start_hand_locked` lines 302-405) -/

/-- Transcribes `_active_seats` (service.py lines 302-303): seats with a
positive stack, in seat order. -/
def active_seats (stacks_list : List Nat) : List Nat :=
  (List.range stacks_list.length).filter (fun seat_id => stacks_list.getD seat_id 0 > 0)

/-- Loop body of `_next_active_after` (service.py lines 305-312), with the
`for _ in range(total_seats)` bound as fuel. -/
def next_active_after_go (active : List Nat) (total_seats : Nat) :
    Nat → Nat → Option Nat
  | 0, _ => none
  | fuel + 1, cursor =>
    let c := (cursor + 1) % total_seats
    if c ∈ active then some c else next_active_after_go active total_seats fuel c

/-- Transcribes `_next_active_after` (service.py lines 305-312): walk
clockwise from the seat for at most `total_seats` steps; the
`RuntimeError` raised on exhaustion becomes `none`. -/
def next_active_after (seat_id : Nat) (active : List Nat) (total_seats : Nat) :
    Option Nat :=
  next_active_after_go active total_seats total_seats seat_id

/-- Transcribes the clockwise ordering loop of `_start_hand_locked`
(service.py lines 336-341). The Python `while` loop terminates because the
cursor cycles through the active seats; the fuel bounds the recursion and
is never exhausted on the inputs the engine supplies. -/
def build_ordered (active : List Nat) (total_seats : Nat) :
    Nat → List Nat → Nat → List Nat
  | 0, ordered, _ => ordered
  | fuel + 1, ordered, cursor =>
    if ordered.length < active.length then
      match next_active_after cursor active total_seats with
      | none => ordered
      | some c =>
        if c ∈ ordered then build_ordered active total_seats fuel ordered c
        else build_ordered active total_seats fuel (ordered ++ [c]) c
    else ordered

/-- Seat assignment computed at hand start (`HandRuntime` fields
`dealer_button_seat`, `sb_seat`, `bb_seat`, `player_index_to_seat`). -/
structure Seating where
  dealer_button_seat : Nat
  sb_seat : Nat
  bb_seat : Nat
  player_index_to_seat : List Nat
deriving Repr, DecidableEq

/-- Transcribes the seating computation of `_start_hand_locked`
(service.py lines 314-344): fewer than two active seats raises
NOT_ENOUGH_PLAYERS (`none` here); a button on a busted seat first moves to
the next active seat; heads-up maps player indices (0, 1) to (big blind,
small blind = button); three or more active seats order players clockwise
starting at the first active seat after the button. -/
def seating_for (stacks_list : List Nat) (dealer_button_seat num_seats : Nat) :
    Option Seating :=
  let active := active_seats stacks_list
  if active.length < 2 then none
  else
    let dealerO :=
      if dealer_button_seat ∈ active then some dealer_button_seat
      else next_active_after dealer_button_seat active num_seats
    match dealerO with
    | none => none
    | some dealer =>
      if active.length == 2 then
        match (active.filter (fun seat => seat ≠ dealer)).head? with
        | none => none
        | some bb_seat =>
          some { dealer_button_seat := dealer, sb_seat := dealer, bb_seat := bb_seat,
                 player_index_to_seat := [bb_seat, dealer] }
      else
        match next_active_after dealer active num_seats with
        | none => none
        | some sb_seat =>
          match next_active_after sb_seat active num_seats with
          | none => none
          | some bb_seat =>
            let ordered := build_ordered active num_seats (num_seats * num_seats)
              [sb_seat, bb_seat] bb_seat
            some { dealer_button_seat := dealer, sb_seat := sb_seat, bb_seat := bb_seat,
                   player_index_to_seat := ordered }

/-- Modelled from the spec: the external rules provider exposes the small
blind as the first actor preflop in a heads-up hand (§4.1 seating rules and
the §8 heads-up scenario); under the heads-up player-index mapping built by
`_start_hand_locked` the small blind is player index 1, so the first
exposed actor index is 1. -/
def heads_up_first_preflop_actor_index : Nat := 1

/-- Seat exposed for the first preflop action of a heads-up hand, through
the `_actor_seat` player-index mapping (service.py lines 931-935). -/
def first_preflop_actor_seat (st : Seating) : Option Nat :=
  st.player_index_to_seat.get? heads_up_first_preflop_actor_index

/-! ### Pot awards (engine/service.py, `_advance_locked` lines 536-570) -/

/-- Entry of the `winners` list of a pot-award payload. -/
structure PotWinner where
  seat : Nat
  amount : Nat
deriving Repr, DecidableEq

/-- The `odd_chip_award` record of a pot-award payload. -/
structure OddChipAward where
  seat : Nat
  amount : Nat
deriving Repr, DecidableEq

/-- The pot-award payload appended to `hand.pot_awards` and exported as
`PotAwardHistoryRow` (engine/models.py lines 214-221). -/
structure PotPayload where
  pot_id : Nat
  amount : Nat
  winners : List PotWinner
  eligible_seats : List Nat
  odd_chip_award : Option OddChipAward
deriving Repr, DecidableEq

/-- Loop body of the winner scan in `_advance_locked` (service.py lines
542-552): skip non-positive amounts, otherwise append the seat-mapped
winner, record the winner seat, and accumulate the total. -/
def push_step (player_index_to_seat : List Nat)
    (acc : List PotWinner × List Nat × Nat) (pa : Nat × Nat) :
    List PotWinner × List Nat × Nat :=
  if pa.2 ≤ 0 then acc
  else
    let seat := player_index_to_seat.getD pa.1 0
    (acc.1 ++ [{ seat := seat, amount := pa.2 }], acc.2.1 ++ [seat], acc.2.2 + pa.2)

/-- Transcribes the pot-award construction in `_advance_locked`
(service.py lines 536-568): enumerate the amounts pushed by the provider
by player index, keep the positive ones as winners, and when there is more
than one winner and the total leaves an odd remainder over the even split,
record the remainder as awarded to the first winner seat. The provider
`push_chips` operation is external; its amounts vector and the eligible
player indices of the pot are inputs here. -/
def push_chips_payload (player_index_to_seat : List Nat) (pot_index : Nat)
    (amounts : List Nat) (pot_player_indices : List Nat) : PotPayload :=
  let folded := amounts.enum.foldl (push_step player_index_to_seat) ([], [], 0)
  let winners := folded.1
  let winner_seats := folded.2.1
  let total_awarded := folded.2.2
  let odd_chip_award :=
    if winner_seats ≠ [] ∧ winner_seats.length > 1 then
      let even_share := total_awarded / winner_seats.length
      let remainder := total_awarded - even_share * winner_seats.length
      if remainder > 0 then
        some { seat := winner_seats.headD 0, amount := remainder }
      else none
    else none
  { pot_id := pot_index
    amount := total_awarded
    winners := winners
    eligible_seats := pot_player_indices.map (fun i => player_index_to_seat.getD i 0)
    odd_chip_award := odd_chip_award }

/-- Concrete pot award used to evaluate C7: provider pushes amounts (3, 2)
to players 0 and 1 mapped to seats 0 and 1. -/
def exPot : PotPayload := push_chips_payload [0, 1] 0 [3, 2] [0, 1]

/-! ### Viewer export masking (engine/service.py, `export_hand_history`
lines 229-248) -/

/-- Fields of the exported hand-history payload read by the viewer-mode
masking block: `hole_cards_by_seat` (seat key to the two hole cards, with
`none` entries as unknown-card markers; the whole value is optional to
mirror the `cards is not None` test) and the `showdown` payload, of which
only nullness is read. Cards are carried as card codes. -/
structure ExportPayload where
  hole_cards_by_seat : List (Nat × Option (List (Option Nat)))
  showdown : Option Unit
deriving Repr, DecidableEq

/-- Transcribes the viewer-mode masking loop of `export_hand_history`
(service.py lines 241-247): for every non-human seat whose cards are
present, substitute the unknown-card markers exactly when the showdown
payload of the hand is null. -/
def export_viewer_mask (payload : ExportPayload) : ExportPayload :=
  { payload with
    hole_cards_by_seat := payload.hole_cards_by_seat.map (fun p =>
      if p.1 ≠ 0 ∧ p.2 ≠ none then
        if payload.showdown = none then (p.1, some [none, none]) else p
      else p) }

/-- Transcribes the mode dispatch of `export_hand_history` (line 241):
masking applies only in `viewer` mode. -/
def export_hand_history_cards (mode : String) (payload : ExportPayload) :
    ExportPayload :=
  if mode == "viewer" then export_viewer_mask payload else payload

/-- Concrete completed hand for C8: seats 0 and 1 reached showdown (the
showdown payload is non-null) and seat 2 folded preflop, so the cards of
seat 2 were never revealed at showdown. -/
def exExportShowdown : ExportPayload :=
  { hole_cards_by_seat :=
      [(0, some [some 12, some 25]), (1, some [some 3, some 41]),
        (2, some [some 7, some 8])]
    showdown := some () }

/-- The same hand ended by folds instead: the showdown payload is null. -/
def exExportAllFold : ExportPayload :=
  { exExportShowdown with showdown := none }

/-! ### Replay drive (engine/service.py, `_replay_from_history` lines
1009-1129 and `_replay_advance` lines 1131-1159)

The replay rebuilds a provider instance from the recorded seeds and
configuration and drives it. The provider is external (pokerkit); it is
modelled from the spec as a phase machine over the forced sub-steps of
§4.1 in their listed order: ante posting, ante-street collection, blind
posting, hole dealing, then per-street collection, board dealing,
showdown reveal, pot push and stack pull. Card identities and chip
amounts do not affect which capability is exposed, so the model carries
phases only and plays a forced runout (no actor is ever exposed), which
is all the settled property needs. -/
inductive MPhase
  | ante_posting (left : Nat)
  | ante_collect
  | blind_posting (left : Nat)
  | hole_dealing (left : Nat)
  | street_collect (street : Nat)
  | board_dealing (street : Nat)
  | showdown_reveal (left : Nat)
  | pushing
  | pulling (left : Nat)
  | terminal
deriving Repr, DecidableEq

/-- Modelled from the spec: provider state as the count of seated players,
the ante size, and the current phase. -/
structure MState where
  num_players : Nat
  ante : Nat
  phase : MPhase
deriving Repr, DecidableEq

/-- Modelled from the spec: a freshly constructed hand owes one ante post
per player before any other sub-step when the ante is positive, and the
blind posts otherwise (§4.1 lists the forced sub-steps in that order; the
live advance loop polls ante before blind, service.py lines 462-476). -/
def MState.initial (num_players ante : Nat) : MState :=
  { num_players := num_players, ante := ante,
    phase := if 0 < ante then MPhase.ante_posting num_players
      else MPhase.blind_posting 2 }

/-- The provider `state.status` query: the hand is active until terminal. -/
def MState.status (s : MState) : Bool :=
  match s.phase with
  | MPhase.terminal => false
  | _ => true

/-- No actor is ever exposed in the forced-runout provider model. -/
def MState.actor_index (_ : MState) : Option Nat := none

def MState.can_post_ante (s : MState) : Bool :=
  match s.phase with
  | MPhase.ante_posting (_ + 1) => true
  | _ => false

def MState.post_ante (s : MState) : MState :=
  match s.phase with
  | MPhase.ante_posting (l + 1) =>
    { s with phase := if l = 0 then MPhase.ante_collect else MPhase.ante_posting l }
  | _ => s

def MState.can_post_blind_or_straddle (s : MState) : Bool :=
  match s.phase with
  | MPhase.blind_posting (_ + 1) => true
  | _ => false

def MState.post_blind_or_straddle (s : MState) : MState :=
  match s.phase with
  | MPhase.blind_posting (l + 1) =>
    { s with phase := if l = 0 then MPhase.hole_dealing (2 * s.num_players)
        else MPhase.blind_posting l }
  | _ => s

def MState.can_deal_hole (s : MState) : Bool :=
  match s.phase with
  | MPhase.hole_dealing (_ + 1) => true
  | _ => false

def MState.deal_hole (s : MState) : MState :=
  match s.phase with
  | MPhase.hole_dealing (l + 1) =>
    { s with phase := if l = 0 then MPhase.street_collect 0
        else MPhase.hole_dealing l }
  | _ => s

def MState.can_collect_bets (s : MState) : Bool :=
  match s.phase with
  | MPhase.ante_collect => true
  | MPhase.street_collect _ => true
  | _ => false

def MState.collect_bets (s : MState) : MState :=
  match s.phase with
  | MPhase.ante_collect => { s with phase := MPhase.blind_posting 2 }
  | MPhase.street_collect st =>
    { s with phase := if st < 3 then MPhase.board_dealing (st + 1)
        else MPhase.showdown_reveal s.num_players }
  | _ => s

def MState.can_deal_board (s : MState) : Bool :=
  match s.phase with
  | MPhase.board_dealing _ => true
  | _ => false

def MState.deal_board (s : MState) : MState :=
  match s.phase with
  | MPhase.board_dealing st => { s with phase := MPhase.street_collect st }
  | _ => s

def MState.can_show_or_muck_hole_cards (s : MState) : Bool :=
  match s.phase with
  | MPhase.showdown_reveal (_ + 1) => true
  | _ => false

def MState.show_or_muck_hole_cards (s : MState) : MState :=
  match s.phase with
  | MPhase.showdown_reveal (l + 1) =>
    { s with phase := if l = 0 then MPhase.pushing else MPhase.showdown_reveal l }
  | _ => s

def MState.can_push_chips (s : MState) : Bool :=
  match s.phase with
  | MPhase.pushing => true
  | _ => false

def MState.push_chips (s : MState) : MState :=
  match s.phase with
  | MPhase.pushing => { s with phase := MPhase.pulling s.num_players }
  | _ => s

def MState.can_pull_chips (s : MState) : Bool :=
  match s.phase with
  | MPhase.pulling (_ + 1) => true
  | _ => false

def MState.pull_chips (s : MState) : MState :=
  match s.phase with
  | MPhase.pulling (l + 1) =>
    { s with phase := if l = 0 then MPhase.terminal else MPhase.pulling l }
  | _ => s

/-- The runout model never offers these optional sub-steps; the burn step
is folded into board dealing, runouts are single, and nothing is killed
or no-operated. Each query is polled by both drive loops. -/
def MState.can_select_runout_count (_ : MState) : Bool := false

def MState.select_runout_count (s : MState) : MState := s

def MState.can_burn_card (_ : MState) : Bool := false

def MState.burn_card (s : MState) : MState := s

def MState.can_kill_hand (_ : MState) : Bool := false

def MState.kill_hand (s : MState) : MState := s

def MState.can_no_operate (_ : MState) : Bool := false

def MState.no_operate (s : MState) : MState := s

def MState.can_fold (_ : MState) : Bool := false

def MState.can_complete_bet_or_raise_to (_ : MState) : Bool := false

/-- Actor transitions of the provider model; no actor is ever exposed in
the forced-runout model, so these are unreachable in both drive loops. -/
def MState.fold (s : MState) : MState := s

def MState.check_or_call (s : MState) : MState := s

def MState.complete_bet_or_raise_to (s : MState) (_ : Nat) : MState := s

/-- Transcribes the dispatch skeleton of `_advance_locked` (service.py
lines 450-592) over the provider model, in the exact polling order of the
source: status, ante, blind, hole card, exposed actor, bet collection,
runout count, burn, board, showdown reveal, kill, pot push, stack pull,
no-op, break. The iteration guard of 500 is the fuel and `none` is the
guard `RuntimeError`. Event emission, ledgers and stack sync are settled
by the other sections and do not affect provider progression. -/
def advance_locked_drive : Nat → MState → Option MState
  | 0, _ => none
  | fuel + 1, s =>
    if !s.status then some s
    else if s.can_post_ante then advance_locked_drive fuel s.post_ante
    else if s.can_post_blind_or_straddle then
      advance_locked_drive fuel s.post_blind_or_straddle
    else if s.can_deal_hole then advance_locked_drive fuel s.deal_hole
    else if (s.actor_index).isSome then some s
    else if s.can_collect_bets then advance_locked_drive fuel s.collect_bets
    else if s.can_select_runout_count then
      advance_locked_drive fuel s.select_runout_count
    else if s.can_burn_card then advance_locked_drive fuel s.burn_card
    else if s.can_deal_board then advance_locked_drive fuel s.deal_board
    else if s.can_show_or_muck_hole_cards then
      advance_locked_drive fuel s.show_or_muck_hole_cards
    else if s.can_kill_hand then advance_locked_drive fuel s.kill_hand
    else if s.can_push_chips then advance_locked_drive fuel s.push_chips
    else if s.can_pull_chips then advance_locked_drive fuel s.pull_chips
    else if s.can_no_operate then advance_locked_drive fuel s.no_operate
    else some s

/-- Transcribes `while state.can_post_blind_or_straddle()` of
`_replay_from_history` (service.py lines 1031-1032). There is no ante
posting anywhere in the replay path. The source loop is unguarded; the
fuel only bounds the recursion and is never exhausted on engine inputs. -/
def replay_post_blinds : Nat → MState → MState
  | 0, s => s
  | fuel + 1, s =>
    if s.can_post_blind_or_straddle then
      replay_post_blinds fuel s.post_blind_or_straddle
    else s

/-- Transcribes `while state.can_deal_hole()` (service.py lines 1033-1035). -/
def replay_deal_holes : Nat → MState → MState
  | 0, s => s
  | fuel + 1, s =>
    if s.can_deal_hole then replay_deal_holes fuel s.deal_hole
    else s

/-- Transcribes `_replay_advance` (service.py lines 1131-1159): while no
actor is exposed and the hand is active, perform the one matching forced
sub-step, else break; guard 500 (its `AssertionError` cannot fire before
the fuel runs out on the paths proved below). -/
def replay_advance : Nat → MState → MState
  | 0, s => s
  | fuel + 1, s =>
    if (s.actor_index).isNone && s.status then
      if s.can_collect_bets then replay_advance fuel s.collect_bets
      else if s.can_select_runout_count then
        replay_advance fuel s.select_runout_count
      else if s.can_burn_card then replay_advance fuel s.burn_card
      else if s.can_deal_board then replay_advance fuel s.deal_board
      else if s.can_show_or_muck_hole_cards then
        replay_advance fuel s.show_or_muck_hole_cards
      else if s.can_kill_hand then replay_advance fuel s.kill_hand
      else if s.can_push_chips then replay_advance fuel s.push_chips
      else if s.can_pull_chips then replay_advance fuel s.pull_chips
      else if s.can_no_operate then replay_advance fuel s.no_operate
      else s
    else s

/-- Transcribes the per-row body of the action loop of
`_replay_from_history` (service.py lines 1042-1064): with no actor the
row is skipped (`continue`); otherwise the recorded action is re-applied,
an all-in row completing to the maximum when a raise is available and
calling otherwise. -/
def replay_one_action (s : MState) (row : ARow) : MState :=
  match s.actor_index with
  | none => s
  | some _ =>
    match row.action with
    | ClientActionType.fold => s.fold
    | ClientActionType.check | ClientActionType.call => s.check_or_call
    | ClientActionType.bet | ClientActionType.raise =>
      s.complete_bet_or_raise_to (row.amount_to.getD 0)
    | ClientActionType.all_in =>
      if s.can_complete_bet_or_raise_to then s.complete_bet_or_raise_to 0
      else s.check_or_call

/-- Transcribes `for row in hand_history.actions` (service.py lines
1037-1064): before each row, when no actor is exposed, drive the forced
sub-steps. -/
def replay_actions_loop (fuelAdv : Nat) : List ARow → MState → MState
  | [], s => s
  | row :: rows, s =>
    let s₁ := if (s.actor_index).isNone then replay_advance fuelAdv s else s
    replay_actions_loop fuelAdv rows (replay_one_action s₁ row)

/-- Transcribes the closing `while state.status` loop of
`_replay_from_history` (service.py lines 1066-1106): perform the one
matching forced sub-step, calling down any exposed actor; when nothing
progresses, break; guard 1000. -/
def replay_forced : Nat → MState → MState
  | 0, s => s
  | fuel + 1, s =>
    if s.status then
      if (s.actor_index).isSome then replay_forced fuel s.check_or_call
      else if s.can_collect_bets then replay_forced fuel s.collect_bets
      else if s.can_select_runout_count then
        replay_forced fuel s.select_runout_count
      else if s.can_burn_card then replay_forced fuel s.burn_card
      else if s.can_deal_board then replay_forced fuel s.deal_board
      else if s.can_show_or_muck_hole_cards then
        replay_forced fuel s.show_or_muck_hole_cards
      else if s.can_kill_hand then replay_forced fuel s.kill_hand
      else if s.can_push_chips then replay_forced fuel s.push_chips
      else if s.can_pull_chips then replay_forced fuel s.pull_chips
      else if s.can_no_operate then replay_forced fuel s.no_operate
      else s
    else s

/-- Fields of the persisted Hand History consumed by the replay drive:
the recorded ante, the number of recorded active seats, and the recorded
action log. -/
structure HandHistoryM where
  ante : Nat
  num_players : Nat
  actions : List ARow
deriving Repr, DecidableEq

/-- Transcribes the state progression of `_replay_from_history`
(service.py lines 1017-1106): reconstruct the provider from the recorded
configuration only, post blinds, deal hole cards, replay the recorded
actions, then drive every remaining forced sub-step. -/
def replay_drive (hist : HandHistoryM) : MState :=
  let s0 := MState.initial hist.num_players hist.ante
  let s1 := replay_post_blinds 1000 s0
  let s2 := replay_deal_holes 1000 s1
  let s3 := replay_actions_loop 500 hist.actions s2
  replay_forced 1000 s3

/-- Transcribes the `hand_terminated` invariant check of the replay
verifier (service.py line 1123): `not state.status`. -/
def replay_hand_terminated (hist : HandHistoryM) : Bool :=
  !(replay_drive hist).status

end CodexPoker

namespace CodexPoker

theorem emitReachable_emitted_eq_range {s : EmitState} (h : EmitReachable s) :
    s.emitted = List.range' 1 s.event_seq := by
  induction h with
  | init => rfl
  | emit _ ih =>
    simp [emitEvent, ih, List.range'_concat, Nat.add_comm]

/-- C3: for every table lifetime, emitted event sequence numbers are the
contiguous run 1, 2, ..., counter: the emission count equals the
table-owned counter (the sole source, never reset between hands), and each
emitted sequence number is exactly one greater than the previous one, so
the stream is strictly increasing with no duplicates and no gaps. -/
theorem event_seq_gapless_strictly_increasing (s : EmitState) (h : EmitReachable s) :
    s.emitted.length = s.event_seq ∧
    ∀ i : Nat, i + 1 < s.emitted.length →
      s.emitted.getD (i + 1) 0 = s.emitted.getD i 0 + 1 := by
  have hrange := emitReachable_emitted_eq_range h
  rw [hrange, List.length_range']
  refine ⟨rfl, ?_⟩
  intro i hi
  rw [List.getD_eq_getElem _ _ (by simpa using hi),
    List.getD_eq_getElem _ _ (by simp; omega)]
  simp only [List.getElem_range'_1]
  omega

/-- Witness for C3 at a concrete table lifetime with two emissions. -/
theorem event_seq_gapless_witness :
    (emitEvent (emitEvent initialEmitState)).emitted.length =
      (emitEvent (emitEvent initialEmitState)).event_seq ∧
    (emitEvent (emitEvent initialEmitState)).emitted.getD 1 0 =
      (emitEvent (emitEvent initialEmitState)).emitted.getD 0 0 + 1 := by
  have h := event_seq_gapless_strictly_increasing _
    (EmitReachable.emit (EmitReachable.emit EmitReachable.init))
  exact ⟨h.1, h.2 0 (by decide)⟩

theorem sum_set_add (l : List Nat) (i v : Nat) (h : i < l.length) :
    (l.set i v).sum + l.get ⟨i, h⟩ = l.sum + v := by
  induction l generalizing i with
  | nil => simp at h
  | cons a t ih =>
    cases i with
    | zero => simp [List.set]; omega
    | succ j =>
      have hj : j < t.length := by simpa using h
      have := ih j hj
      simp only [List.set, List.sum_cons, List.get] at *
      omega

theorem sum_zipWith_add (l₁ l₂ : List Nat) (h : l₁.length = l₂.length) :
    (List.zipWith (· + ·) l₁ l₂).sum = l₁.sum + l₂.sum := by
  induction l₁ generalizing l₂ with
  | nil => cases l₂ with
    | nil => simp
    | cons b t => simp at h
  | cons a t ih =>
    cases l₂ with
    | nil => simp at h
    | cons b t₂ =>
      have ht : t.length = t₂.length := by simpa using h
      simp [List.zipWith, ih t₂ ht]
      omega

theorem sum_eraseIdx_add (l : List Nat) (k : Nat) (h : k < l.length) :
    (l.eraseIdx k).sum + l.get ⟨k, h⟩ = l.sum := by
  induction l generalizing k with
  | nil => simp at h
  | cons a t ih =>
    cases k with
    | zero => simp [List.eraseIdx]; omega
    | succ j =>
      have hj : j < t.length := by simpa using h
      have := ih j hj
      simp only [List.eraseIdx, List.sum_cons, List.get] at *
      omega

theorem chipTotal_step {g g' : ChipState} (h : ChipStep g g') :
    chipTotal g' = chipTotal g := by
  cases h with
  | toBet i m hi hib hm =>
    have hs := sum_set_add g.stacks_by_seat i (g.stacks_by_seat.get ⟨i, hi⟩ - m) hi
    have hb := sum_set_add g.bets i (g.bets.get ⟨i, hib⟩ + m) hib
    simp only [chipTotal]
    omega
  | collect =>
    simp only [chipTotal, List.sum_append, List.sum_cons, List.sum_nil,
      List.sum_replicate, smul_eq_mul]
    omega
  | push k amounts hk hlen hsum =>
    have hz := sum_zipWith_add g.bets amounts hlen.symm
    have he := sum_eraseIdx_add g.pots k hk
    simp only [chipTotal]
    omega
  | pull i hi hib =>
    have hs := sum_set_add g.stacks_by_seat i (g.stacks_by_seat.get ⟨i, hi⟩ + g.bets.get ⟨i, hib⟩) hi
    have hb := sum_set_add g.bets i 0 hib
    simp only [chipTotal]
    omega

theorem chipReachable_total {num_seats starting_stack : Nat} {g : ChipState}
    (h : ChipReachable num_seats starting_stack g) :
    chipTotal g = starting_stack * num_seats := by
  induction h with
  | init =>
    simp [chipTotal, initialChips, List.sum_replicate, smul_eq_mul, Nat.mul_comm]
  | step _ hstep ih => rw [chipTotal_step hstep, ih]

/-- C1: at every reachable observation point the sum of all seat stacks,
plus all chips currently in front, plus all pot amounts, equals
`starting_stack * num_seats`, so the `chip_conservation` field of the live
invariant payload is always true; in particular when a hand has completed
(nothing in front, no pots) the final stacks alone sum to
`starting_stack * num_seats`, and any replayed final stacks that pass the
`chip_conservation` check of the replay verifier against those hand-start
stacks also sum to `starting_stack * num_seats`. -/
theorem chip_conservation_invariant (num_seats starting_stack : Nat) (g : ChipState)
    (h : ChipReachable num_seats starting_stack g) :
    chipConservationCheck num_seats starting_stack g = true ∧
    (g.bets.sum = 0 → g.pots = [] → g.stacks_by_seat.sum = starting_stack * num_seats) ∧
    (∀ finalStacks : List Nat,
      replayChipConservationCheck g.stacks_by_seat finalStacks = true →
      g.bets.sum = 0 → g.pots = [] →
      finalStacks.sum = starting_stack * num_seats) := by
  have htot := chipReachable_total h
  refine ⟨?_, ?_, ?_⟩
  · simp only [chipConservationCheck, beq_iff_eq]
    simpa [chipTotal] using htot
  · intro hb hp
    simp [chipTotal, hb, hp] at htot
    exact htot
  · intro finalStacks hrep hb hp
    simp only [replayChipConservationCheck, beq_iff_eq] at hrep
    simp [chipTotal, hb, hp] at htot
    omega

/-- Witness for C1 on a concrete two-seat table after posting a blind of 4
and collecting it into a pot. -/
theorem chip_conservation_witness :
    chipConservationCheck 2 10
      { stacks_by_seat := [6, 10], bets := [0, 0], pots := [4] } = true := by
  have h0 : ChipReachable 2 10 (initialChips 2 10) := ChipReachable.init
  have h1 : ChipReachable 2 10
      { stacks_by_seat := [6, 10], bets := [4, 0], pots := [] } :=
    ChipReachable.step h0
      (ChipStep.toBet (initialChips 2 10) 0 4 (by decide) (by decide) (by decide))
  have h2 : ChipReachable 2 10
      { stacks_by_seat := [6, 10], bets := [0, 0], pots := [4] } :=
    ChipReachable.step h1
      (ChipStep.collect { stacks_by_seat := [6, 10], bets := [4, 0], pots := [] })
  exact (chip_conservation_invariant 2 10 _ h2).1

theorem lookup_append_self {β : Type} (l : List (String × β)) (k : String) (v : β)
    (h : List.lookup k l = none) :
    List.lookup k (l ++ [(k, v)]) = some v := by
  induction l with
  | nil => simp [List.lookup]
  | cons p t ih =>
    obtain ⟨a, b⟩ := p
    by_cases hk : k == a
    · simp [List.lookup, hk] at h
    · simp only [List.lookup, List.cons_append, hk] at h ⊢
      exact ih h

theorem branch_preserves_cache {pt : PTrans} {table : TableSt} {hand : HandSt}
    {seat : Nat} {action : ClientActionType} {amount_to : Option Nat}
    {s' : PState} {a' : ClientActionType} {al : Option Nat} {h₁ : HandSt}
    (h : apply_branch pt table hand seat action amount_to =
      Except.ok (s', a', al, h₁)) :
    h₁.idempotency_cache = hand.idempotency_cache := by
  cases action <;> simp only [apply_branch] at h
  case fold =>
    split at h
    · cases h
    · simp only [Except.ok.injEq, Prod.mk.injEq] at h
      obtain ⟨-, -, -, h4⟩ := h
      rw [← h4]
  case check =>
    split at h
    · cases h
    · simp only [Except.ok.injEq, Prod.mk.injEq] at h
      obtain ⟨-, -, -, h4⟩ := h
      rw [← h4]
      split <;> rfl
  case call =>
    split at h
    · cases h
    · simp only [Except.ok.injEq, Prod.mk.injEq] at h
      obtain ⟨-, -, -, h4⟩ := h
      rw [← h4]
      split <;> rfl
  case bet =>
    split at h
    · cases h
    · split at h
      · cases h
      · split at h
        · split at h
          · cases h
          · simp only [Except.ok.injEq, Prod.mk.injEq] at h
            obtain ⟨-, -, -, h4⟩ := h
            rw [← h4]
            split <;> rfl
        · cases h
  case raise =>
    split at h
    · cases h
    · split at h
      · cases h
      · split at h
        · split at h
          · cases h
          · simp only [Except.ok.injEq, Prod.mk.injEq] at h
            obtain ⟨-, -, -, h4⟩ := h
            rw [← h4]
            split <;> rfl
        · cases h
  case all_in =>
    split at h
    · simp only [Except.ok.injEq, Prod.mk.injEq] at h
      obtain ⟨-, -, -, h4⟩ := h
      rw [← h4]
    · split at h
      · simp only [Except.ok.injEq, Prod.mk.injEq] at h
        obtain ⟨-, -, -, h4⟩ := h
        rw [← h4]
      · cases h

theorem apply_preserves_cache {pt : PTrans} {table : TableSt} {hand : HandSt}
    {seat : Nat} {action : ClientActionType} {amount_to : Option Nat}
    {table' : TableSt} {hand' : HandSt}
    (h : apply_player_action pt table hand seat action amount_to =
      Except.ok (table', hand')) :
    hand'.idempotency_cache = hand.idempotency_cache := by
  unfold apply_player_action at h
  split at h
  · cases h
  · split at h
    · cases h
    · rename_i state1 alog1 amtl1 hand1 heq
      simp only [Except.ok.injEq] at h
      have hc := branch_preserves_cache heq
      have h2 : hand' = (finish_action table hand1 seat state1 alog1 amtl1).2 := by
        rw [h]
      rw [h2]
      simpa [finish_action] using hc

/-- C4 counterexample: a stale action sequence number is not rejected when
the idempotency key is already cached for the hand. On `exTable` the
current sequence number is 5, so 3 is stale, yet submitting with the
cached key `retry-key` returns the cached accepted response instead of a
sequence error (state is still unmutated). -/
theorem stale_seq_with_cached_key_not_rejected :
    (3 : Nat) ≠ exHand.action_seq + 1 ∧
    exTable.current_hand = some exHand ∧
    submit_action trivialPTrans trivialAdvance exTable "human" ClientActionType.call 3
        "retry-key" none = (SubmitOutcome.ok exResp, exTable) ∧
    exResp.accepted = true := by decide

/-- C4 (amended): whenever `submit_action` is called during an active hand
by the human viewer with an idempotency key not already cached for this
hand, and with an action sequence number different from the current hand
sequence number + 1, the submission is rejected with the sequence error
`BAD_ACTION_SEQ` and no hand or table state is mutated. -/
theorem stale_action_seq_rejected (pt : PTrans)
    (advF : TableSt → HandSt → TableSt × HandSt) (table : TableSt) (hand : HandSt)
    (viewer_id : String) (action : ClientActionType) (action_seq : Nat)
    (idempotency_key : String) (amount_to : Option Nat)
    (hh : table.current_hand = some hand)
    (hmiss : List.lookup idempotency_key hand.idempotency_cache = none)
    (hv : viewer_id = "human")
    (hseq : action_seq ≠ hand.action_seq + 1) :
    submit_action pt advF table viewer_id action action_seq idempotency_key amount_to =
      (SubmitOutcome.raised "BAD_ACTION_SEQ", table) := by
  subst hv
  unfold submit_action
  rw [hh]
  simp only [hmiss, ne_eq, not_true_eq_false, if_false, if_pos hseq]

/-- Witness for amended C4: a fresh key with stale sequence number 3 on
`exTable` is rejected with `BAD_ACTION_SEQ` and the table is unchanged. -/
theorem stale_action_seq_rejected_witness :
    submit_action trivialPTrans trivialAdvance exTable "human" ClientActionType.call 3
        "fresh-key" none = (SubmitOutcome.raised "BAD_ACTION_SEQ", exTable) :=
  stale_action_seq_rejected trivialPTrans trivialAdvance exTable exHand "human"
    ClientActionType.call 3 "fresh-key" none rfl (by decide) rfl (by decide)

theorem cached_key_returns_cached (pt : PTrans)
    (advF : TableSt → HandSt → TableSt × HandSt) (table : TableSt) (hand : HandSt)
    (viewer_id : String) (action : ClientActionType) (action_seq : Nat)
    (idempotency_key : String) (amount_to : Option Nat) (r : Response)
    (hh : table.current_hand = some hand)
    (hit : List.lookup idempotency_key hand.idempotency_cache = some r) :
    submit_action pt advF table viewer_id action action_seq idempotency_key amount_to =
      (SubmitOutcome.ok r, table) := by
  unfold submit_action
  rw [hh]
  simp only [hit]

/-- C5: submitting an action whose idempotency key was already seen for the
current hand returns the previously computed response unchanged and leaves
the entire table state (stacks, events, hand) untouched; in particular a
successful submission followed by a resubmission with the same key, the
same action and the same action sequence number yields the identical
response twice while mutating state only once. The hypothesis on
`advance_locked` records that `_advance_locked` never writes the
idempotency cache, which holds of the source. -/
theorem idempotent_resubmission (pt : PTrans)
    (advF : TableSt → HandSt → TableSt × HandSt) (table table₁ : TableSt)
    (hand : HandSt) (action : ClientActionType) (action_seq : Nat)
    (idempotency_key : String) (amount_to : Option Nat) (r : Response)
    (hh : table.current_hand = some hand)
    (hmiss : List.lookup idempotency_key hand.idempotency_cache = none)
    (hadv : ∀ t h, ((advF t h).2).idempotency_cache = h.idempotency_cache)
    (hfirst : submit_action pt advF table "human" action action_seq idempotency_key
      amount_to = (SubmitOutcome.ok r, table₁))
    (hacc : r.accepted = true) :
    submit_action pt advF table₁ "human" action action_seq idempotency_key amount_to =
      (SubmitOutcome.ok r, table₁) := by
  unfold submit_action at hfirst
  rw [hh] at hfirst
  simp only [hmiss, ne_eq, not_true_eq_false, if_false] at hfirst
  split at hfirst
  · cases hfirst
  · split at hfirst
    · cases hfirst
    · split at hfirst
      · rename_i heq
        simp only [Prod.mk.injEq, SubmitOutcome.ok.injEq] at hfirst
        obtain ⟨hr, -⟩ := hfirst
        rw [← hr] at hacc
        simp at hacc
      · rename_i t1 h1 heq
        simp only [Prod.mk.injEq, SubmitOutcome.ok.injEq] at hfirst
        obtain ⟨hr, ht⟩ := hfirst
        have hcache : (advF t1 h1).2.idempotency_cache =
            hand.idempotency_cache := by
          rw [hadv]
          exact apply_preserves_cache heq
        subst ht
        refine cached_key_returns_cached pt advF _ _ "human" action action_seq
          idempotency_key amount_to r rfl ?_
        show List.lookup idempotency_key
            ((advF t1 h1).2.idempotency_cache ++
              [(idempotency_key,
                { accepted := true
                  error_code := none
                  server_action_seq := (advF t1 h1).2.action_seq
                  event_delta_len :=
                    (advF t1 h1).2.event_log.length - hand.event_log.length })]) =
          some r
        rw [hr]
        exact lookup_append_self _ _ _ (by rw [hcache]; exact hmiss)

/-- Witness for C5: on `exTable`, submitting a call at sequence 6 under the
fresh key and then resubmitting identically returns the same response and
the same table state. -/
theorem idempotent_resubmission_witness :
    submit_action trivialPTrans trivialAdvance exFirstCall.2 "human"
        ClientActionType.call 6 "fresh-key" none =
      (SubmitOutcome.ok exRespAfter, exFirstCall.2) :=
  idempotent_resubmission trivialPTrans trivialAdvance exTable exFirstCall.2 exHand
    ClientActionType.call 6 "fresh-key" none exRespAfter rfl (by decide)
    (fun _ _ => rfl) (by decide) rfl

/-- C10: every rejected submission (a raised caller-input error or a
returned response with `accepted=False`) leaves the whole table state, and
in particular the per-hand idempotency cache, unchanged: only accepted
submissions are cached, so a resubmission after a rejection is validated
afresh rather than replayed. -/
theorem rejection_leaves_cache_unchanged (pt : PTrans)
    (advF : TableSt → HandSt → TableSt × HandSt) (table : TableSt)
    (viewer_id : String) (action : ClientActionType) (action_seq : Nat)
    (idempotency_key : String) (amount_to : Option Nat)
    (out : SubmitOutcome) (table' : TableSt)
    (h : submit_action pt advF table viewer_id action action_seq idempotency_key
      amount_to = (out, table'))
    (hrej : isRejected out = true) :
    table' = table ∧
    ∀ hand, table.current_hand = some hand →
      ∃ hand', table'.current_hand = some hand' ∧
        hand'.idempotency_cache = hand.idempotency_cache := by
  have hmain : table' = table := by
    unfold submit_action at h
    split at h
    · simp only [Prod.mk.injEq] at h
      exact h.2.symm
    · split at h
      · simp only [Prod.mk.injEq] at h
        exact h.2.symm
      · split at h
        · simp only [Prod.mk.injEq] at h
          exact h.2.symm
        · split at h
          · simp only [Prod.mk.injEq] at h
            exact h.2.symm
          · split at h
            · simp only [Prod.mk.injEq] at h
              exact h.2.symm
            · split at h
              · simp only [Prod.mk.injEq] at h
                exact h.2.symm
              · simp only [Prod.mk.injEq] at h
                rw [← h.1] at hrej
                simp [isRejected] at hrej
  subst hmain
  exact ⟨rfl, fun hand hh => ⟨hand, hh, rfl⟩⟩

/-- Witness for C10: an out-of-range raise on `exTable` is returned as a
rejected response and both the table and the cache are unchanged. -/
theorem rejection_leaves_cache_unchanged_witness :
    (submit_action trivialPTrans trivialAdvance exTable "human" ClientActionType.raise 6
        "fresh-key" (some 99)).2 = exTable ∧
    ∃ hand',
      (submit_action trivialPTrans trivialAdvance exTable "human" ClientActionType.raise 6
        "fresh-key" (some 99)).2.current_hand = some hand' ∧
      hand'.idempotency_cache = exHand.idempotency_cache := by
  have h := rejection_leaves_cache_unchanged trivialPTrans trivialAdvance exTable
    "human" ClientActionType.raise 6 "fresh-key" (some 99)
    (submit_action trivialPTrans trivialAdvance exTable "human" ClientActionType.raise 6
      "fresh-key" (some 99)).1
    (submit_action trivialPTrans trivialAdvance exTable "human" ClientActionType.raise 6
      "fresh-key" (some 99)).2
    rfl (by decide)
  exact ⟨h.1, h.2 exHand rfl⟩

/-- C6: action-log normalization. First conjunct: an accepted check/call
whose positive call amount exactly equals the remaining stack of the
acting seat is recorded in the action log as `all_in`, not `call`. Second
conjunct: an accepted bet/raise whose target amount equals the maximum
legal raise-to amount queried at the moment of application is recorded as
`all_in`. -/
theorem normalization_logs_all_in :
    (∀ (pt : PTrans) (table : TableSt) (hand : HandSt) (seat c : Nat)
      (a : ClientActionType),
      actor_seat hand = some seat →
      (a = ClientActionType.check ∨ a = ClientActionType.call) →
      hand.pstate.can_check_or_call = true →
      hand.pstate.checking_or_calling_amount = some c →
      0 < c →
      table.seat_stacks.getD seat 0 = c →
      logged_action (apply_player_action pt table hand seat a none) =
        some ClientActionType.all_in) ∧
    (∀ (pt : PTrans) (table : TableSt) (hand : HandSt) (seat mn mx : Nat)
      (a : ClientActionType),
      actor_seat hand = some seat →
      (a = ClientActionType.bet ∨ a = ClientActionType.raise) →
      hand.pstate.can_complete_bet_or_raise_to = true →
      hand.pstate.min_completion_betting_or_raising_to_amount = some mn →
      hand.pstate.max_completion_betting_or_raising_to_amount = some mx →
      mn ≤ mx →
      logged_action (apply_player_action pt table hand seat a (some mx)) =
        some ClientActionType.all_in) := by
  constructor
  · intro pt table hand seat c a hactor ha hcc hamt hpos hstack
    have hstack' : table.seat_stacks[seat]?.getD 0 = c := by
      simpa [List.getD_eq_getElem?_getD] using hstack
    unfold apply_player_action
    rw [if_neg (by simp [hactor])]
    rcases ha with ha | ha <;> subst ha <;>
      simp [apply_branch, hcc, hamt, hpos, hstack', logged_action, finish_action,
        List.getLast?_concat]
  · intro pt table hand seat mn mx a hactor ha hcan hmin hmax hle
    have hnosize : ¬ (mx < mn ∨ mx > mx) := by omega
    have hlt : ¬ mx < mn := by omega
    unfold apply_player_action
    rw [if_neg (by simp [hactor])]
    rcases ha with ha | ha <;> subst ha <;>
      simp [apply_branch, hcan, hmin, hmax, hnosize, hlt, logged_action, finish_action,
        List.getLast?_concat]

/-- Witness for C6: on `exTableShort` a call of 10 with stack 10 is logged
as all-in, and on `exTable` a raise to the maximum 10 is logged as all-in. -/
theorem normalization_logs_all_in_witness :
    logged_action (apply_player_action trivialPTrans exTableShort exHandShort 0
        ClientActionType.call none) = some ClientActionType.all_in ∧
    logged_action (apply_player_action trivialPTrans exTable exHand 0
        ClientActionType.raise (some 10)) = some ClientActionType.all_in :=
  ⟨normalization_logs_all_in.1 trivialPTrans exTableShort exHandShort 0 10
      ClientActionType.call (by decide) (Or.inr rfl) (by decide) (by decide)
      (by decide) (by decide),
    normalization_logs_all_in.2 trivialPTrans exTable exHand 0 4 10
      ClientActionType.raise (by decide) (Or.inr rfl) (by decide) (by decide)
      (by decide) (by decide)⟩

/-- C9: in every hand started with exactly two active seats, the small
blind seat equals the dealer button seat recorded for the hand, and the
first actor exposed preflop is the small blind seat. -/
theorem heads_up_button_is_small_blind (stacks_list : List Nat)
    (button num_seats : Nat) (st : Seating)
    (h2 : (active_seats stacks_list).length = 2)
    (h : seating_for stacks_list button num_seats = some st) :
    st.sb_seat = st.dealer_button_seat ∧
    first_preflop_actor_seat st = some st.sb_seat := by
  unfold seating_for at h
  simp only [h2] at h
  norm_num at h
  split at h
  · cases h
  · split at h
    · cases h
    · simp only [Option.some.injEq] at h
      subst h
      exact ⟨rfl, rfl⟩

/-- Witness for C9: a two-seat table with stacks (100, 100) and the button
on seat 0 seats the small blind on the button seat 0, and seat 0 acts
first preflop. -/
theorem heads_up_button_is_small_blind_witness :
    seating_for [100, 100] 0 2 =
      some { dealer_button_seat := 0, sb_seat := 0, bb_seat := 1,
             player_index_to_seat := [1, 0] } ∧
    first_preflop_actor_seat
      { dealer_button_seat := 0, sb_seat := 0, bb_seat := 1,
        player_index_to_seat := [1, 0] } = some 0 :=
  ⟨by decide,
    (heads_up_button_is_small_blind [100, 100] 0 2 _ (by decide) (by decide)).2⟩

theorem push_foldl_spec (mapping : List Nat) (l : List (Nat × Nat))
    (w : List PotWinner) (s : List Nat) (t : Nat) :
    l.foldl (push_step mapping) (w, s, t) =
      (w ++ (l.filter (fun pa => decide (0 < pa.2))).map
          (fun pa => { seat := mapping.getD pa.1 0, amount := pa.2 }),
        s ++ (l.filter (fun pa => decide (0 < pa.2))).map
          (fun pa => mapping.getD pa.1 0),
        t + ((l.filter (fun pa => decide (0 < pa.2))).map Prod.snd).sum) := by
  induction l generalizing w s t with
  | nil => simp
  | cons pa tl ih =>
    by_cases hp : pa.2 ≤ 0
    · have hz : ¬ (0 < pa.2) := by omega
      simp [push_step, hp, hz, List.filter_cons, ih]
    · have hz : 0 < pa.2 := by omega
      simp [push_step, hp, hz, List.filter_cons, ih, List.append_assoc,
        Nat.add_assoc]

theorem sum_filter_pos_snd (l : List (Nat × Nat)) :
    ((l.filter (fun pa => decide (0 < pa.2))).map Prod.snd).sum =
      (l.map Prod.snd).sum := by
  induction l with
  | nil => rfl
  | cons pa tl ih =>
    by_cases hz : 0 < pa.2
    · simp [List.filter_cons, hz, ih]
    · have h0 : pa.2 = 0 := by omega
      simp [List.filter_cons, hz, ih, h0]

/-- C7 counterexample: for a pot pushed by the provider as amounts
(3, 2) — total 5, two winners — the recorded winner amounts already sum to
the recorded total 5 and the recorded odd chip amount is 1, so the sum of
winner amounts plus the remainder is 6, not the recorded total. -/
theorem split_pot_sum_plus_remainder_counterexample :
    exPot.winners.length > 1 ∧
    exPot.odd_chip_award = some { seat := 0, amount := 1 } ∧
    ¬ ((exPot.winners.map PotWinner.amount).sum + 1 = exPot.amount) := by decide

/-- C7 (amended): for every pot recorded with more than one winner, the
recorded winner amounts themselves sum to the recorded pot total (they
already include the odd chip the provider pushed); the recorded total
equals the sum of all pushed amounts; winner count times the even share
plus the remainder equals the recorded total; and exactly when the total
is not evenly divisible among the winners, the odd chip award names
exactly one winner, the first-listed winner (the winning seat earliest in
the provider player-index order, which starts at the first active seat
after the button), with the remainder as its amount. -/
theorem payload_components (mapping : List Nat) (pot_index : Nat)
    (amounts : List Nat) (elig : List Nat) :
    (push_chips_payload mapping pot_index amounts elig).winners =
        (amounts.enum.filter fun pa => decide (0 < pa.2)).map
          (fun pa => { seat := mapping.getD pa.1 0, amount := pa.2 }) ∧
    (push_chips_payload mapping pot_index amounts elig).amount =
        ((amounts.enum.filter fun pa => decide (0 < pa.2)).map Prod.snd).sum ∧
    (push_chips_payload mapping pot_index amounts elig).odd_chip_award =
        (let ws := (amounts.enum.filter fun pa => decide (0 < pa.2)).map
            (fun pa => mapping.getD pa.1 0)
         let t := ((amounts.enum.filter fun pa => decide (0 < pa.2)).map Prod.snd).sum
         if ws ≠ [] ∧ ws.length > 1 then
           if t - t / ws.length * ws.length > 0 then
             some { seat := ws.headD 0, amount := t - t / ws.length * ws.length }
           else none
         else none) := by
  unfold push_chips_payload
  rw [push_foldl_spec]
  refine ⟨?_, ?_, ?_⟩ <;> simp

/-- C7 (amended): for every pot recorded with more than one winner, the
recorded winner amounts themselves sum to the recorded pot total (they
already include the odd chip the provider pushed); the recorded total
equals the sum of all pushed amounts; winner count times the even share
plus the remainder equals the recorded total; and exactly when the total
is not evenly divisible among the winners, the odd chip award names
exactly one winner, the first-listed winner (the winning seat earliest in
the provider player-index order, which starts at the first active seat
after the button), with the remainder as its amount. -/
theorem split_pot_award_amended (mapping : List Nat) (pot_index : Nat)
    (amounts : List Nat) (elig : List Nat) (P : PotPayload)
    (hP : P = push_chips_payload mapping pot_index amounts elig)
    (hmulti : 1 < P.winners.length) :
    (P.winners.map PotWinner.amount).sum = P.amount ∧
    P.amount = amounts.sum ∧
    P.winners.length * (P.amount / P.winners.length) +
      P.amount % P.winners.length = P.amount ∧
    (0 < P.amount % P.winners.length →
      P.odd_chip_award = some { seat := (P.winners.map PotWinner.seat).headD 0,
                                amount := P.amount % P.winners.length }) ∧
    (P.amount % P.winners.length = 0 → P.odd_chip_award = none) := by
  obtain ⟨hw, ha, ho⟩ := payload_components mapping pot_index amounts elig
  rw [← hP] at hw ha ho
  set fl := (amounts.enum.filter fun pa => decide (0 < pa.2)) with hfl
  have hseats : P.winners.map PotWinner.seat =
      fl.map (fun pa => mapping.getD pa.1 0) := by
    rw [hw, List.map_map]
    rfl
  have hwlen : P.winners.length = fl.length := by rw [hw, List.length_map]
  have hslen : (fl.map (fun pa => mapping.getD pa.1 0)).length = fl.length :=
    List.length_map _ _
  have hamt : (P.winners.map PotWinner.amount).sum = P.amount := by
    rw [hw, ha, List.map_map]
    rfl
  have hcond : (fl.map (fun pa => mapping.getD pa.1 0)) ≠ [] ∧
      (fl.map (fun pa => mapping.getD pa.1 0)).length > 1 := by
    constructor
    · intro hnil
      rw [← List.length_eq_zero] at hnil
      omega
    · omega
  have hdm : P.winners.length * (P.amount / P.winners.length) +
      P.amount % P.winners.length = P.amount := Nat.div_add_mod _ _
  have hdm' : P.amount / P.winners.length * P.winners.length +
      P.amount % P.winners.length = P.amount := by
    rw [Nat.mul_comm] at hdm
    exact hdm
  have hrem : P.amount - P.amount / P.winners.length * P.winners.length =
      P.amount % P.winners.length := by omega
  refine ⟨hamt, ?_, hdm, ?_, ?_⟩
  · rw [ha, hfl, sum_filter_pos_snd, List.enum_map_snd]
  · intro hpos
    rw [ho]
    simp only [← ha, ← hseats]
    rw [List.length_map, hrem]
    have hne : List.map PotWinner.seat P.winners ≠ [] := by
      intro hnil
      have hlen0 := congrArg List.length hnil
      rw [List.length_map] at hlen0
      simp only [List.length_nil] at hlen0
      omega
    rw [if_pos ⟨hne, hmulti⟩, if_pos hpos]
  · intro hzero
    rw [ho]
    simp only [← ha, ← hseats]
    rw [List.length_map, hrem]
    have hne : List.map PotWinner.seat P.winners ≠ [] := by
      intro hnil
      have hlen0 := congrArg List.length hnil
      rw [List.length_map] at hlen0
      simp only [List.length_nil] at hlen0
      omega
    rw [if_pos ⟨hne, hmulti⟩, if_neg (by omega)]

/-- Witness for amended C7 at the concrete two-winner pot with pushed
amounts (3, 2): winner amounts sum to the recorded total and the odd chip
record names the first-listed winner with the remainder 1. -/
theorem split_pot_award_amended_witness :
    (exPot.winners.map PotWinner.amount).sum = exPot.amount ∧
    exPot.odd_chip_award =
      some { seat := (exPot.winners.map PotWinner.seat).headD 0,
             amount := exPot.amount % exPot.winners.length } := by
  have h := split_pot_award_amended [0, 1] 0 [3, 2] [0, 1] exPot rfl (by decide)
  exact ⟨h.1, h.2.2.2.1 (by decide)⟩

/-- C8: the viewer export does not mask a seat whose cards were never
revealed at showdown when some other seats did reach showdown. On the
concrete hand `exExportShowdown` (showdown non-null, seat 2 folded before
showdown and never revealed) the viewer export leaves the true hole cards
of seat 2 in the payload; on the fold-ended variant of the same hand
(showdown null) the very same seat is masked to unknown-card markers,
showing that masking is keyed on the whole showdown payload being null
rather than on per-seat reveals. -/
theorem viewer_export_leaks_unrevealed_cards :
    ((export_hand_history_cards "viewer" exExportShowdown).hole_cards_by_seat.lookup 2 =
      some (some [some 7, some 8])) ∧
    ((export_hand_history_cards "viewer" exExportAllFold).hole_cards_by_seat.lookup 2 =
      some (some [none, none])) := by decide

theorem replay_post_blinds_ante_stall (fuel np a l : Nat) :
    replay_post_blinds fuel ⟨np, a, MPhase.ante_posting l⟩ =
      ⟨np, a, MPhase.ante_posting l⟩ := by
  cases fuel <;> rfl

theorem replay_deal_holes_ante_stall (fuel np a l : Nat) :
    replay_deal_holes fuel ⟨np, a, MPhase.ante_posting l⟩ =
      ⟨np, a, MPhase.ante_posting l⟩ := by
  cases fuel <;> rfl

theorem replay_advance_ante_stall (fuel np a l : Nat) :
    replay_advance fuel ⟨np, a, MPhase.ante_posting l⟩ =
      ⟨np, a, MPhase.ante_posting l⟩ := by
  cases fuel <;> rfl

theorem replay_actions_ante_stall (fuelAdv : Nat) (rows : List ARow) (np a l : Nat) :
    replay_actions_loop fuelAdv rows ⟨np, a, MPhase.ante_posting l⟩ =
      ⟨np, a, MPhase.ante_posting l⟩ := by
  induction rows with
  | nil => rfl
  | cons row rows ih =>
    have hstep : replay_actions_loop fuelAdv (row :: rows)
        ⟨np, a, MPhase.ante_posting l⟩ =
        replay_actions_loop fuelAdv rows
          (replay_one_action
            (replay_advance fuelAdv ⟨np, a, MPhase.ante_posting l⟩) row) := rfl
    rw [hstep, replay_advance_ante_stall fuelAdv np a l]
    exact ih

theorem replay_forced_ante_stall (fuel np a l : Nat) :
    replay_forced fuel ⟨np, a, MPhase.ante_posting l⟩ =
      ⟨np, a, MPhase.ante_posting l⟩ := by
  cases fuel <;> rfl

/-- C2 (code bug): `_replay_from_history` never posts antes, while the
live `_advance_locked` loop does. First conjunct: for every persisted hand
history whose configuration has a positive ante, the replay drive leaves
the reconstructed provider stalled in the ante-posting phase regardless of
the recorded actions, so the `hand_terminated` invariant check is false —
the replayed hand never reaches a terminal state, and its stacks stay at
the initial stacks. Second conjunct: the live advance loop on the same
initial provider state (two players, ante 1, the spec §8 configuration)
does reach the terminal phase. Third conjunct: with a zero ante the same
replay drive does terminate, so the stall is caused precisely by the
missing ante handling in replay. -/
theorem replay_with_ante_never_terminates :
    (∀ hist : HandHistoryM, 0 < hist.ante →
      replay_hand_terminated hist = false) ∧
    advance_locked_drive 500 (MState.initial 2 1) =
      some { num_players := 2, ante := 1, phase := MPhase.terminal } ∧
    replay_hand_terminated { ante := 0, num_players := 2, actions := [] } = true := by
  refine ⟨?_, by decide, by decide⟩
  intro hist hante
  obtain ⟨ante, np, rows⟩ := hist
  simp only at hante
  unfold replay_hand_terminated replay_drive
  simp only [MState.initial, if_pos hante]
  rw [replay_post_blinds_ante_stall, replay_deal_holes_ante_stall,
    replay_actions_ante_stall, replay_forced_ante_stall]
  rfl

/-- Witness for C2 at the spec §8 configuration (two players, ante 1):
the replayed hand is not terminated. -/
theorem replay_with_ante_never_terminates_witness :
    replay_hand_terminated { ante := 1, num_players := 2, actions := [] } = false :=
  replay_with_ante_never_terminates.1
    { ante := 1, num_players := 2, actions := [] } (by decide)

end CodexPoker
